import Mathlib

/-!
Shallow embedding of the in-memory generic `DataStore` from `src/types.ts`
(class `DataStore`, class `TransactionalProxy`) of the ts104 repository,
together with proofs of the behavioural claims about it.

Modelling conventions:
* A record (a TypeScript object) is an association list from field names to
  runtime values; lookup returns the first binding, matching JS property
  access on objects (which never hold duplicate keys).
* JS numbers are modelled as integers (`Int`); every numeric value appearing
  in the repository's behaviour (ages, ids, epochs) is integral.
* A `Date` value is modelled by its epoch instant (`getTime()`), since the
  store only ever compares dates through `getTime()`.
* The backing `Map` (insertion-ordered in JS) is an association list from
  key values to records; `Map.set` overwrites in place, `Map.delete`
  removes, `Array.from(map.values())` is the list of second components.
* `Date.now()` is passed in explicitly as a `now : Nat` argument.
* Throwing is modelled with `Except`: an operation that can throw returns
  the (possibly mutated) store paired with `Except DSError result`.
* The logger only produces console output and is dropped from the model.
-/

namespace DS

/-- Runtime value kinds distinguished by the store's filter matcher
(`typeof val === 'string' | 'number'`, `val instanceof Date`, fallback),
plus `null` (checked against in `create`). -/
inductive Value where
  | str (s : String)
  | num (n : Int)
  | bool (b : Bool)
  | date (t : Int)
  | null
  deriving DecidableEq

/-- A record: a JS object as an association list of named fields. -/
abbrev Rcd := List (String × Value)

namespace Assoc

variable {α : Type} {β : Type} [DecidableEq α]

/-- First-binding lookup: JS property access `obj[k]` / `Map.get(k)`
(`none` models `undefined`). -/
def lookup (k : α) : List (α × β) → Option β
  | [] => none
  | e :: rest => if e.1 = k then some e.2 else lookup k rest

/-- The list of keys, in order. -/
def keys (l : List (α × β)) : List α := l.map Prod.fst

/-- Write a binding: JS `obj[k] = v` / `Map.set(k, v)` — an existing key
keeps its position and gets the new value, a new key is appended. -/
def set (k : α) (v : β) (l : List (α × β)) : List (α × β) :=
  if (lookup k l).isSome then
    l.map (fun e => if e.1 = k then (k, v) else e)
  else
    l ++ [(k, v)]

/-- Shallow merge: JS `{...a, ...b}` — keys of `a` in order with values
overridden by `b` where present, then keys only in `b` in order. -/
def merge (a b : List (α × β)) : List (α × β) :=
  a.map (fun e => match lookup e.1 b with | some w => (e.1, w) | none => e) ++
    b.filter (fun e => (lookup e.1 a).isNone)

/-- Remove a key: JS `Map.delete(k)` (the map never holds duplicate keys). -/
def del (k : α) (l : List (α × β)) : List (α × β) :=
  l.filter (fun e => e.1 ≠ k)

end Assoc

/-- Substring test: JS `String.prototype.includes`. -/
def strIncludes (s pat : String) : Bool :=
  pat.isEmpty || (s.splitOn pat).length > 1

/-- Per-field operator object (`FieldFilter<V>` in `src/types.ts`): each
slot is `none` when the property is absent (`undefined`).  Operand types
follow the declarations: `contains`/`startsWith`/`endsWith` are strings,
`lt`/`lte`/`gt`/`gte` numbers, `before`/`after` Dates (modelled by their
epoch), `between` a pair of numbers or of Dates (both compared numerically,
Dates through `getTime`), and `eq` any value (compared strictly). -/
structure FieldFilter where
  eq : Option Value := none
  contains : Option String := none
  startsWith : Option String := none
  endsWith : Option String := none
  lt : Option Int := none
  lte : Option Int := none
  gt : Option Int := none
  gte : Option Int := none
  between : Option (Int × Int) := none
  before : Option Int := none
  after : Option Int := none
  deriving DecidableEq

mutual
/-- A filter object (`Filter<T>` in `src/types.ts`): named field entries
(an entry's `none` models a field key present with a null/undefined operator
set, skipped by the matcher) plus optional `$and` / `$or` arrays. -/
inductive Filter where
  | node (fields : List (String × Option FieldFilter))
      (andC : Option FilterList) (orC : Option FilterList) : Filter
/-- A JS array of sub-filters (as in `$and: [...]` / `$or: [...]`). -/
inductive FilterList where
  | nil : FilterList
  | cons (f : Filter) (fs : FilterList) : FilterList
end

/-- One field check of `DataStore.matchesFilter` (`src/types.ts`
lines 179-216): read the record's value at `k` and dispatch on its runtime
kind.  Absent (`undefined`), `null` and boolean values take the fallback
branch, which only checks strict equality against `eq` (so an absent field
fails any specified `eq`).  A `Date` `eq` operand against a date value
compares epochs; a non-`Date` operand there is outside the typed `Filter<T>`
surface (the source would throw calling `getTime` on it) and is modelled as
a failed match. -/
def matchField (item : Rcd) (k : String) (ff : FieldFilter) : Bool :=
  match Assoc.lookup k item with
  | some (.str sv) =>
      (ff.eq.all fun e => e == Value.str sv) &&
      (ff.contains.all fun c => strIncludes sv c) &&
      (ff.startsWith.all fun c => sv.startsWith c) &&
      (ff.endsWith.all fun c => sv.endsWith c)
  | some (.num nv) =>
      (ff.eq.all fun e => e == Value.num nv) &&
      (ff.lt.all fun c => nv < c) &&
      (ff.lte.all fun c => nv ≤ c) &&
      (ff.gt.all fun c => nv > c) &&
      (ff.gte.all fun c => nv ≥ c) &&
      (ff.between.all fun p => p.1 ≤ nv && nv ≤ p.2)
  | some (.date tv) =>
      (ff.eq.all fun e => match e with | .date t => tv == t | _ => false) &&
      (ff.before.all fun t => tv < t) &&
      (ff.after.all fun t => tv > t) &&
      (ff.between.all fun p => p.1 ≤ tv && tv ≤ p.2)
  | v =>
      ff.eq.all fun e => match v with | some w => w == e | none => false

mutual
/-- `DataStore.matchesFilter` (`src/types.ts` lines 166-218) on a present
filter object: an empty object matches everything; otherwise the `$and`
group (when present) must all match, the `$or` group (when present) must
have at least one match, and every named field entry must pass
`matchField` — the source's early `return false`s are the conjunction. -/
def matchesFilterF (item : Rcd) : Filter → Bool
  | .node fields andC orC =>
    if fields.isEmpty && andC.isNone && orC.isNone then true
    else
      (match andC with | none => true | some fs => matchesAll item fs) &&
      (match orC with | none => true | some fs => matchesAny item fs) &&
      fields.all (fun p =>
        match p.2 with | none => true | some ff => matchField item p.1 ff)

/-- `filter.$and.every((f) => this.matchesFilter(item, f))`. -/
def matchesAll (item : Rcd) : FilterList → Bool
  | .nil => true
  | .cons f fs => matchesFilterF item f && matchesAll item fs

/-- `filter.$or.some((f) => this.matchesFilter(item, f))`. -/
def matchesAny (item : Rcd) : FilterList → Bool
  | .nil => false
  | .cons f fs => matchesFilterF item f || matchesAny item fs
end

/-- `DataStore.matchesFilter` including the absent-filter guard
(`if (!filter || ...) return true`). -/
def matchesFilter (item : Rcd) : Option Filter → Bool
  | none => true
  | some f => matchesFilterF item f

/-- Sort direction (`'asc' | 'desc'`). -/
inductive SortDirection where
  | asc
  | desc
  deriving DecidableEq

/-- Pagination and sorting options (`QueryOptions<T>`); optional slots are
`none` when absent, and `list`/`query` called without options correspond to
the all-`none` record.  JS `number` options are modelled as naturals (the
meaningful domain: counts of records). -/
structure QueryOptions where
  limit : Option Nat := none
  offset : Option Nat := none
  sortBy : Option String := none
  sortDir : Option SortDirection := none
  deriving DecidableEq

/-- JS `>` between two record field values of the same runtime kind (the
only comparisons the typed sort surface produces): numbers and dates
numerically (a Date coerces to its epoch), strings lexicographically,
booleans via 1/0.  Cross-kind comparisons are modelled as not-greater. -/
def Value.jsGT : Value → Value → Bool
  | .num a, .num b => a > b
  | .str a, .str b => decide (b < a)
  | .date a, .date b => a > b
  | .bool a, .bool b => a && !b
  | _, _ => false

/-- JS `>` lifted to possibly-absent field values: any comparison with
`undefined` is false. -/
def optJsGT : Option Value → Option Value → Bool
  | some a, some b => a.jsGT b
  | _, _ => false

/-- The sort comparator of `list`/`query` (`src/types.ts` lines 135-140 and
154-159): `0` when the two field values are strictly equal, otherwise
`(va > vb ? 1 : -1) * dir` with `dir = -1` for descending. -/
def sortCmp (f : String) (dir : Int) (a b : Rcd) : Int :=
  let va := Assoc.lookup f a
  let vb := Assoc.lookup f b
  if va = vb then 0 else (if optJsGT va vb then 1 else -1) * dir

/-- `arr.sort(comparator)`: a stable sort placing `a` before `b` whenever
the comparator is non-positive (ES2019+ requires `Array.prototype.sort` to
be stable). -/
def sortRecs (f : String) (dir : Int) (arr : List Rcd) : List Rcd :=
  arr.mergeSort (fun a b => decide (sortCmp f dir a b ≤ 0))

/-- JS `arr.slice(start, stop)` for natural indices: the elements with
indices in `[start, min(stop, arr.length))`. -/
def jsSlice {α : Type} (l : List α) (start stop : Nat) : List α :=
  (l.take stop).drop start

/-- The two error kinds thrown by the store (`throw new Error(...)` in
`create` and `update`), plus an arbitrary caller-raised error for
transaction bodies (§7 of the spec: "any caller-raised error"). -/
inductive DSError where
  | duplicateKey (key : Value)
  | notFound
  | userError (message : String)
  deriving DecidableEq

/-- The mutable state of a `DataStore` instance: the designated key field
name (constructor argument `keyName`), the backing insertion-ordered map,
and the auto-id counter (`autoIdSeed`, initially 1). -/
structure Store where
  keyName : String
  map : List (Value × Rcd)
  autoIdSeed : Nat
  deriving DecidableEq

/-- A freshly constructed store: `new DataStore(keyName)`. -/
def Store.empty (keyName : String) : Store :=
  { keyName := keyName, map := [], autoIdSeed := 1 }

/-- One base-36 digit of `Number.prototype.toString(36)`. -/
def base36Char (n : Nat) : Char :=
  if n < 10 then Char.ofNat (48 + n) else Char.ofNat (87 + n)

/-- Base-36 digit list with structural fuel (fuel `n + 1` always suffices). -/
def toBase36Aux : Nat → Nat → List Char
  | 0, _ => []
  | fuel + 1, n =>
    if n < 36 then [base36Char n]
    else toBase36Aux fuel (n / 36) ++ [base36Char (n % 36)]

/-- `n.toString(36)` for a natural number. -/
def toBase36 (n : Nat) : String := String.mk (toBase36Aux (n + 1) n)

/-- `DataStore.generateId`: `` `id_${Date.now().toString(36)}_${this.autoIdSeed++}` ``
(with `Date.now()` passed in as `now`; the seed increment is threaded by
the caller). -/
def generateId (now seed : Nat) : String :=
  "id_" ++ toBase36 now ++ "_" ++ toString seed

/-- Key resolution in `create` (`src/types.ts` lines 91-99): the
caller-supplied key unless it is absent (`undefined`) or `null`, in which
case a fresh string id is generated and the seed advances.  Returns the
resolved key together with the seed value after the call. -/
def Store.resolveKey (s : Store) (now : Nat) (item : Rcd) : Value × Nat :=
  match Assoc.lookup s.keyName item with
  | none => (Value.str (generateId now s.autoIdSeed), s.autoIdSeed + 1)
  | some Value.null => (Value.str (generateId now s.autoIdSeed), s.autoIdSeed + 1)
  | some k => (k, s.autoIdSeed)

/-- `DataStore.create` (`src/types.ts` lines 90-108): resolve the key,
build `{ ...item, [keyName]: finalKey }`, throw `Duplicate key` if the map
already has the key (the seed increment from generation survives the
throw), otherwise insert and return the record. -/
def Store.create (s : Store) (now : Nat) (item : Rcd) : Store × Except DSError Rcd :=
  let fk := (s.resolveKey now item).1
  let record := Assoc.set s.keyName fk item
  if (Assoc.lookup fk s.map).isSome then
    ({ s with autoIdSeed := (s.resolveKey now item).2 },
     .error (.duplicateKey fk))
  else
    ({ s with map := Assoc.set fk record s.map,
              autoIdSeed := (s.resolveKey now item).2 },
     .ok record)

/-- `DataStore.get`: `this.map.get(key)`. -/
def Store.get (s : Store) (k : Value) : Option Rcd :=
  Assoc.lookup k s.map

/-- `DataStore.update` (`src/types.ts` lines 115-123): throw `NotFound`
when the key is absent, otherwise store and return
`{ ...existing, ...patch }`. -/
def Store.update (s : Store) (k : Value) (patch : Rcd) : Store × Except DSError Rcd :=
  match Assoc.lookup k s.map with
  | none => (s, .error .notFound)
  | some existing =>
    let updated := Assoc.merge existing patch
    ({ s with map := Assoc.set k updated s.map }, .ok updated)

/-- `DataStore.delete`: `this.map.delete(key)` and whether it existed. -/
def Store.delete (s : Store) (k : Value) : Store × Bool :=
  ({ s with map := Assoc.del k s.map }, (Assoc.lookup k s.map).isSome)

/-- The array `list` builds before slicing: `Array.from(this.map.values())`,
sorted when `sortBy` is given (`dir` is `-1` exactly when
`sortDir === 'desc'`). -/
def Store.listArr (s : Store) (o : QueryOptions) : List Rcd :=
  let arr := s.map.map Prod.snd
  match o.sortBy with
  | none => arr
  | some f =>
    sortRecs f (match o.sortDir with | some .desc => -1 | _ => 1) arr

/-- `DataStore.list` (`src/types.ts` lines 131-145): the (optionally
sorted) value array sliced by `arr.slice(offset, offset + limit)` with
`offset` defaulting to `0` and `limit` to `arr.length`. -/
def Store.list (s : Store) (o : QueryOptions) : List Rcd :=
  let arr := s.listArr o
  let offset := o.offset.getD 0
  let limit := o.limit.getD arr.length
  jsSlice arr offset (offset + limit)

/-- The array `query` builds before slicing: the filtered values, sorted
when `sortBy` is given. -/
def Store.queryArr (s : Store) (f : Filter) (o : QueryOptions) : List Rcd :=
  let found := (s.map.map Prod.snd).filter fun item => matchesFilter item (some f)
  match o.sortBy with
  | none => found
  | some fld =>
    sortRecs fld (match o.sortDir with | some .desc => -1 | _ => 1) found

/-- `DataStore.query` (`src/types.ts` lines 147-164): filter, then the same
sort/offset/limit pipeline as `list` (the default limit being the length of
the filtered result). -/
def Store.query (s : Store) (f : Filter) (o : QueryOptions) : List Rcd :=
  let result := s.queryArr f o
  let offset := o.offset.getD 0
  let limit := o.limit.getD result.length
  jsSlice result offset (offset + limit)

/-- `DataStore.clear`: `this.map.clear()`. -/
def Store.clear (s : Store) : Store :=
  { s with map := [] }

/-- One invocation of a public store operation, with its arguments
(`Date.now()` at the time of a `create` included). -/
inductive Op where
  | createOp (now : Nat) (item : Rcd)
  | getOp (key : Value)
  | updateOp (key : Value) (patch : Rcd)
  | deleteOp (key : Value)
  | listOp (options : QueryOptions)
  | queryOp (filter : Filter) (options : QueryOptions)
  | clearOp

/-- The value an operation returns to its caller. -/
inductive Out where
  | recOut (r : Rcd)
  | optOut (r : Option Rcd)
  | boolOut (b : Bool)
  | listOut (l : List Rcd)
  | unitOut
  deriving DecidableEq

/-- Uniform dispatch of one public operation: the store afterwards, and
either the returned value or the thrown error. -/
def Store.step (s : Store) : Op → Store × Except DSError Out
  | .createOp now item =>
    let r := s.create now item
    (r.1, r.2.map Out.recOut)
  | .getOp k => (s, .ok (.optOut (s.get k)))
  | .updateOp k p =>
    let r := s.update k p
    (r.1, r.2.map Out.recOut)
  | .deleteOp k =>
    let r := s.delete k
    (r.1, .ok (.boolOut r.2))
  | .listOp o => (s, .ok (.listOut (s.list o)))
  | .queryOp f o => (s, .ok (.listOut (s.query f o)))
  | .clearOp => (s.clear, .ok .unitOut)

/-- One step of a transaction body: an operation on the transaction view
(the `TransactionalProxy`, which forwards `create`/`get`/`update`/`delete`/
`list`/`query` to the store), or the body raising its own error. -/
inductive Cmd where
  | op (o : Op)
  | raiseE (message : String)

/-- Run a transaction body — a sequence of commands against the view — on
the live store: mutations apply immediately, and the first uncaught error
aborts the rest.  Returns the store as the body left it, and either the
list of the operations' results (the body's value) or the error. -/
def runBody (s : Store) : List Cmd → Store × Except DSError (List Out)
  | [] => (s, .ok [])
  | c :: cs =>
    match c with
    | .raiseE m => (s, .error (.userError m))
    | .op o =>
      match s.step o with
      | (s', .error e) => (s', .error e)
      | (s', .ok out) =>
        let r := runBody s' cs
        (r.1, r.2.map fun outs => out :: outs)

/-- `DataStore.transaction` (`src/types.ts` lines 221-235): snapshot the
map, run the body against the proxy; on normal completion the in-place
mutations stand and the body's value is returned, on any error the map is
replaced wholesale by the snapshot and the same error is re-raised (the
`autoIdSeed` is not part of the snapshot and keeps any advance). -/
def Store.transaction (s : Store) (body : List Cmd) : Store × Except DSError (List Out) :=
  let snapshot := s.map
  match runBody s body with
  | (s', .ok outs) => (s', .ok outs)
  | (s', .error e) => ({ s' with map := snapshot }, .error e)

/-- The store invariant (spec §3): every record sits under the key equal to
its own key-field value, and the map's keys are pairwise distinct. -/
def StoreInv (s : Store) : Prop :=
  (Assoc.keys s.map).Nodup ∧
    ∀ e ∈ s.map, Assoc.lookup s.keyName e.2 = some e.1

/-- Well-formedness of an operation's arguments relative to the store's key
field: the static `Update<T, K>` type keeps the key field out of every
patch.  All other operations are unrestricted. -/
inductive WfOp (kn : String) : Op → Prop
  | createW (now : Nat) (item : Rcd) : WfOp kn (.createOp now item)
  | getW (k : Value) : WfOp kn (.getOp k)
  | updateW (k : Value) (p : Rcd) (hp : Assoc.lookup kn p = none) :
      WfOp kn (.updateOp k p)
  | deleteW (k : Value) : WfOp kn (.deleteOp k)
  | listW (o : QueryOptions) : WfOp kn (.listOp o)
  | queryW (f : Filter) (o : QueryOptions) : WfOp kn (.queryOp f o)
  | clearW : WfOp kn .clearOp

/-- Well-formedness of a transaction-body command: operations are
well-formed and go through the proxy, which does not expose `clear`. -/
inductive WfCmd (kn : String) : Cmd → Prop
  | opW (o : Op) (hw : WfOp kn o) (hnc : o ≠ .clearOp) : WfCmd kn (.op o)
  | raiseW (m : String) : WfCmd kn (.raiseE m)

/-- The states a store with key field `kn` can reach from construction by
any sequence of public operations with type-correct arguments, including
whole transactions with arbitrary bodies. -/
inductive Reachable (kn : String) : Store → Prop
  | init : Reachable kn (Store.empty kn)
  | step {s : Store} {o : Op} (hs : Reachable kn s) (ho : WfOp kn o) :
      Reachable kn (s.step o).1
  | txn {s : Store} {body : List Cmd} (hs : Reachable kn s)
      (hb : ∀ c ∈ body, WfCmd kn c) :
      Reachable kn (s.transaction body).1

/-- The record `{name:"Alice",age:25}` from the spec's filter example. -/
def aliceRcd : Rcd := [("name", Value.str "Alice"), ("age", Value.num 25)]

/-- The record `{name:"Bob",age:35}` from the spec's filter example. -/
def bobRcd : Rcd := [("name", Value.str "Bob"), ("age", Value.num 35)]

/-- The record `{name:"Charlie",age:45}` from the spec's filter example. -/
def charlieRcd : Rcd := [("name", Value.str "Charlie"), ("age", Value.num 45)]

/-- A store keyed by `name` holding exactly the three example records. -/
def demoStore : Store :=
  { keyName := "name",
    map := [(Value.str "Alice", aliceRcd), (Value.str "Bob", bobRcd),
            (Value.str "Charlie", charlieRcd)],
    autoIdSeed := 1 }

/-- A record `{id:"a", x:1}` keyed by `id`. -/
def userRcd : Rcd := [("id", Value.str "a"), ("x", Value.num 1)]

/-- A store keyed by `id` holding just `userRcd` under `"a"`. -/
def userStore : Store :=
  { keyName := "id", map := [(Value.str "a", userRcd)], autoIdSeed := 1 }

/-- A store holding one record `t1`, as in the spec's rollback example. -/
def txnStore : Store :=
  { keyName := "id", map := [(Value.str "t1", [("id", Value.str "t1")])],
    autoIdSeed := 1 }

/-- The store `txnStore` after a successful `create` of `t2`. -/
def txnStoreAfter : Store :=
  { keyName := "id",
    map := [(Value.str "t1", [("id", Value.str "t1")]),
            (Value.str "t2", [("id", Value.str "t2")])],
    autoIdSeed := 1 }

/-- A transaction body that creates `t2` and then raises. -/
def txnBodyFail : List Cmd :=
  [.op (.createOp 0 [("id", Value.str "t2")]), .raiseE "boom"]

/-- A transaction body that creates `t2` and returns normally. -/
def txnBodyOk : List Cmd :=
  [.op (.createOp 0 [("id", Value.str "t2")])]

namespace Assoc

variable {α : Type} {β : Type} [DecidableEq α]

@[simp] theorem lookup_nil (k : α) : lookup k ([] : List (α × β)) = none := rfl

@[simp] theorem lookup_cons (k : α) (e : α × β) (l : List (α × β)) :
    lookup k (e :: l) = if e.1 = k then some e.2 else lookup k l := rfl

theorem lookup_append (k : α) (l₁ l₂ : List (α × β)) :
    lookup k (l₁ ++ l₂) =
      match lookup k l₁ with
      | some v => some v
      | none => lookup k l₂ := by
  induction l₁ with
  | nil => simp
  | cons e rest ih =>
    by_cases h : e.1 = k <;> simp [h, ih]

theorem lookup_eq_none_iff (k : α) (l : List (α × β)) :
    lookup k l = none ↔ k ∉ keys l := by
  induction l with
  | nil => simp [keys]
  | cons e rest ih =>
    by_cases h : e.1 = k <;> simp [h, keys, ih] <;> tauto

theorem lookup_mem {k : α} {v : β} {l : List (α × β)}
    (h : lookup k l = some v) : (k, v) ∈ l := by
  induction l with
  | nil => simp [lookup] at h
  | cons e rest ih =>
    obtain ⟨x, w⟩ := e
    by_cases he : x = k
    · subst he
      simp [lookup] at h
      subst h
      exact List.mem_cons_self _ _
    · simp [lookup, he] at h
      exact List.mem_cons_of_mem _ (ih h)

theorem lookup_map_set_self (k : α) (v : β) (l : List (α × β))
    (h : (lookup k l).isSome) :
    lookup k (l.map fun e => if e.1 = k then (k, v) else e) = some v := by
  induction l with
  | nil => simp [lookup] at h
  | cons e rest ih =>
    obtain ⟨x, w⟩ := e
    by_cases he : x = k
    · subst he
      simp [lookup]
    · simp only [lookup_cons, he, if_false] at h
      simp [lookup, he, ih h]

theorem lookup_map_set_ne (k k' : α) (v : β) (l : List (α × β))
    (hne : k' ≠ k) :
    lookup k' (l.map fun e => if e.1 = k then (k, v) else e) = lookup k' l := by
  induction l with
  | nil => rfl
  | cons e rest ih =>
    obtain ⟨x, w⟩ := e
    by_cases he : x = k
    · subst he
      simp [lookup, Ne.symm hne, ih]
    · simp [lookup, he, ih]

@[simp] theorem lookup_set_self (k : α) (v : β) (l : List (α × β)) :
    lookup k (set k v l) = some v := by
  unfold set
  by_cases h : (lookup k l).isSome
  · rw [if_pos h]
    exact lookup_map_set_self k v l h
  · rw [if_neg h, lookup_append]
    rw [Option.not_isSome_iff_eq_none] at h
    simp [h, lookup]

@[simp] theorem lookup_set_ne (k k' : α) (v : β) (l : List (α × β))
    (hne : k' ≠ k) : lookup k' (set k v l) = lookup k' l := by
  unfold set
  by_cases h : (lookup k l).isSome
  · rw [if_pos h]
    exact lookup_map_set_ne k k' v l hne
  · rw [if_neg h, lookup_append]
    cases hl : lookup k' l with
    | some w => rfl
    | none => simp [lookup, Ne.symm hne]

theorem keys_set_of_mem (k : α) (v : β) (l : List (α × β))
    (h : (lookup k l).isSome) : keys (set k v l) = keys l := by
  unfold set
  rw [if_pos h]
  simp only [keys, List.map_map]
  apply List.map_congr_left
  intro e _
  by_cases he : e.1 = k <;> simp [he, Function.comp]

theorem keys_set_of_not_mem (k : α) (v : β) (l : List (α × β))
    (h : ¬ (lookup k l).isSome) : keys (set k v l) = keys l ++ [k] := by
  unfold set
  rw [if_neg h]
  simp [keys]

theorem lookup_filter_isNone (k : α) (a b : List (α × β))
    (ha : lookup k a = none) :
    lookup k (b.filter fun e => (lookup e.1 a).isNone) = lookup k b := by
  induction b with
  | nil => rfl
  | cons e rest ih =>
    obtain ⟨x, w⟩ := e
    rw [List.filter_cons]
    by_cases he : x = k
    · subst he
      have hx : (lookup x a).isNone := by simp [ha]
      simp [hx, lookup, ih]
    · by_cases hf : (lookup x a).isNone
      · simp [hf, lookup, he, ih]
      · simp [hf, lookup, he, ih]

theorem lookup_map_merge (k : α) (a b : List (α × β)) :
    lookup k (a.map fun e =>
        match lookup e.1 b with | some w => (e.1, w) | none => e) =
      match lookup k a, lookup k b with
      | some _, some w => some w
      | some v, none => some v
      | none, _ => none := by
  induction a with
  | nil =>
    cases lookup k b <;> rfl
  | cons e rest ih =>
    obtain ⟨x, w⟩ := e
    by_cases he : x = k
    · subst he
      cases hb : lookup x b with
      | some u => simp [lookup, hb]
      | none => simp [lookup, hb]
    · cases hb : lookup x b with
      | some u => simp [lookup, he, hb, ih]
      | none => simp [lookup, he, hb, ih]

theorem lookup_merge (k : α) (a b : List (α × β)) :
    lookup k (merge a b) =
      match lookup k b with
      | some v => some v
      | none => lookup k a := by
  unfold merge
  rw [lookup_append, lookup_map_merge]
  cases ha : lookup k a with
  | some v =>
    cases hb : lookup k b with
    | some w => rfl
    | none => rfl
  | none =>
    rw [lookup_filter_isNone k a b ha]
    cases hb : lookup k b with
    | some w => rfl
    | none => rfl

@[simp] theorem lookup_del_self (k : α) (l : List (α × β)) :
    lookup k (del k l) = none := by
  induction l with
  | nil => rfl
  | cons e rest ih =>
    obtain ⟨x, w⟩ := e
    by_cases he : x = k
    · subst he
      simpa [del, List.filter_cons, lookup] using ih
    · simpa [del, List.filter_cons, lookup, he] using ih

@[simp] theorem lookup_del_ne (k k' : α) (l : List (α × β)) (hne : k' ≠ k) :
    lookup k' (del k l) = lookup k' l := by
  induction l with
  | nil => rfl
  | cons e rest ih =>
    obtain ⟨x, w⟩ := e
    by_cases he : x = k
    · subst he
      simpa [del, List.filter_cons, lookup, Ne.symm hne] using ih
    · by_cases he' : x = k'
      · simp [del, List.filter_cons, lookup, he, he', hne, ih]
      · simpa [del, List.filter_cons, lookup, he, he'] using ih

end Assoc

theorem create_keyName (s : Store) (now : Nat) (item : Rcd) :
    (s.create now item).1.keyName = s.keyName := by
  simp only [Store.create]
  split <;> rfl

theorem update_keyName (s : Store) (k : Value) (p : Rcd) :
    (s.update k p).1.keyName = s.keyName := by
  simp only [Store.update]
  split <;> rfl

theorem step_keyName (s : Store) (o : Op) :
    (s.step o).1.keyName = s.keyName := by
  cases o with
  | createOp now item => exact create_keyName s now item
  | updateOp k p => exact update_keyName s k p
  | getOp k => rfl
  | deleteOp k => rfl
  | listOp o => rfl
  | queryOp f o => rfl
  | clearOp => rfl

theorem runBody_keyName (cmds : List Cmd) :
    ∀ s : Store, (runBody s cmds).1.keyName = s.keyName := by
  induction cmds with
  | nil => intro s; rfl
  | cons c cs ih =>
    intro s
    cases c with
    | raiseE m => rfl
    | op o =>
      simp only [runBody]
      cases hstep : s.step o with
      | mk s' r =>
        have hkn : s'.keyName = s.keyName := by
          have h := step_keyName s o
          rw [hstep] at h
          exact h
        cases r with
        | error e => exact hkn
        | ok out => exact (ih s').trans hkn

theorem transaction_keyName (s : Store) (body : List Cmd) :
    (s.transaction body).1.keyName = s.keyName := by
  simp only [Store.transaction]
  cases hrb : runBody s body with
  | mk s' r =>
    have hkn : s'.keyName = s.keyName := by
      have h := runBody_keyName body s
      rw [hrb] at h
      exact h
    cases r with
    | ok outs => exact hkn
    | error e => exact hkn

theorem mem_set {k : α} {v : β} {l : List (α × β)} [DecidableEq α] {e : α × β}
    (he : e ∈ Assoc.set k v l) : e = (k, v) ∨ e ∈ l := by
  unfold Assoc.set at he
  by_cases h : (Assoc.lookup k l).isSome
  · rw [if_pos h] at he
    obtain ⟨e₀, he₀, rfl⟩ := List.mem_map.mp he
    by_cases hk : e₀.1 = k
    · left
      simp [hk]
    · right
      simpa [hk] using he₀
  · rw [if_neg h] at he
    rcases List.mem_append.mp he with h1 | h2
    · right
      exact h1
    · left
      simpa using h2

theorem inv_create (s : Store) (now : Nat) (item : Rcd) (h : StoreInv s) :
    StoreInv (s.create now item).1 := by
  obtain ⟨hnd, hkey⟩ := h
  simp only [Store.create]
  split
  · exact ⟨hnd, hkey⟩
  · rename_i hnot
    constructor
    · rw [Assoc.keys_set_of_not_mem _ _ _ hnot]
      have hn : Assoc.lookup (s.resolveKey now item).1 s.map = none :=
        Option.not_isSome_iff_eq_none.mp hnot
      have hfk : (s.resolveKey now item).1 ∉ Assoc.keys s.map :=
        (Assoc.lookup_eq_none_iff _ _).mp hn
      simp [List.nodup_append, hnd, hfk]
    · intro e he
      rcases mem_set he with h1 | h2
      · subst h1
        exact Assoc.lookup_set_self _ _ _
      · exact hkey e h2

theorem inv_update (s : Store) (k : Value) (p : Rcd)
    (hp : Assoc.lookup s.keyName p = none) (h : StoreInv s) :
    StoreInv (s.update k p).1 := by
  obtain ⟨hnd, hkey⟩ := h
  simp only [Store.update]
  cases hex : Assoc.lookup k s.map with
  | none => exact ⟨hnd, hkey⟩
  | some existing =>
    constructor
    · rw [Assoc.keys_set_of_mem]
      · exact hnd
      · rw [hex]
        rfl
    · intro e he
      rcases mem_set he with h1 | h2
      · subst h1
        rw [Assoc.lookup_merge, hp]
        exact hkey (k, existing) (Assoc.lookup_mem hex)
      · exact hkey e h2

theorem inv_delete (s : Store) (k : Value) (h : StoreInv s) :
    StoreInv (s.delete k).1 := by
  obtain ⟨hnd, hkey⟩ := h
  simp only [Store.delete]
  constructor
  · have hsub : List.Sublist (Assoc.del k s.map) s.map := List.filter_sublist _
    exact hnd.sublist (hsub.map Prod.fst)
  · intro e he
    exact hkey e (List.mem_of_mem_filter he)

theorem inv_step (s : Store) (o : Op) (hw : WfOp s.keyName o) (h : StoreInv s) :
    StoreInv (s.step o).1 := by
  cases hw with
  | createW now item => exact inv_create s now item h
  | updateW k p hp => exact inv_update s k p hp h
  | deleteW k => exact inv_delete s k h
  | clearW =>
    constructor
    · simp [Store.step, Store.clear, Assoc.keys]
    · intro e he
      simp [Store.step, Store.clear] at he
  | getW k => exact h
  | listW o => exact h
  | queryW f o => exact h

theorem inv_runBody (cmds : List Cmd) :
    ∀ s : Store, StoreInv s → (∀ c ∈ cmds, WfCmd s.keyName c) →
      StoreInv (runBody s cmds).1 := by
  induction cmds with
  | nil =>
    intro s h _
    exact h
  | cons c cs ih =>
    intro s h hw
    cases c with
    | raiseE m => exact h
    | op o =>
      have hwo : WfOp s.keyName o := by
        cases hw (.op o) (by simp) with
        | opW _ hw' _ => exact hw'
      simp only [runBody]
      cases hstep : s.step o with
      | mk s' r =>
        have hs' : StoreInv s' := by
          have hh := inv_step s o hwo h
          rw [hstep] at hh
          exact hh
        have hkn : s'.keyName = s.keyName := by
          have hh := step_keyName s o
          rw [hstep] at hh
          exact hh
        cases r with
        | error e => exact hs'
        | ok out =>
          refine ih s' hs' ?_
          intro c hc
          rw [hkn]
          exact hw c (by simp [hc])

theorem inv_transaction (s : Store) (body : List Cmd) (h : StoreInv s)
    (hb : ∀ c ∈ body, WfCmd s.keyName c) :
    StoreInv (s.transaction body).1 := by
  simp only [Store.transaction]
  cases hrb : runBody s body with
  | mk s' r =>
    have hs' : StoreInv (runBody s body).1 := inv_runBody body s h hb
    rw [hrb] at hs'
    have hkn : s'.keyName = s.keyName := by
      have hh := runBody_keyName body s
      rw [hrb] at hh
      exact hh
    cases r with
    | ok outs => exact hs'
    | error e =>
      obtain ⟨hnd, hkey⟩ := h
      refine ⟨hnd, ?_⟩
      intro e' he'
      have : Assoc.lookup s.keyName e'.2 = some e'.1 := hkey e' he'
      rw [show ({ s' with map := s.map } : Store).keyName = s.keyName from hkn]
      exact this

theorem reachable_inv {kn : String} {s : Store} (h : Reachable kn s) :
    StoreInv s ∧ s.keyName = kn := by
  induction h with
  | init =>
    refine ⟨⟨?_, ?_⟩, rfl⟩
    · simp [Store.empty, Assoc.keys]
    · intro e he
      simp [Store.empty] at he
  | step hs hw ih =>
    obtain ⟨hinv, hkn⟩ := ih
    refine ⟨inv_step _ _ (by rw [hkn]; exact hw) hinv, ?_⟩
    rw [step_keyName]
    exact hkn
  | txn hs hb ih =>
    obtain ⟨hinv, hkn⟩ := ih
    refine ⟨inv_transaction _ _ hinv (by rw [hkn]; exact hb), ?_⟩
    rw [transaction_keyName]
    exact hkn

theorem update_eq_of_none {s : Store} {k : Value} (patch : Rcd)
    (hl : Assoc.lookup k s.map = none) :
    s.update k patch = (s, .error .notFound) := by
  simp only [Store.update]
  rw [hl]

theorem update_eq_of_some {s : Store} {k : Value} {ex : Rcd} (patch : Rcd)
    (hl : Assoc.lookup k s.map = some ex) :
    s.update k patch =
      ({ s with map := Assoc.set k (Assoc.merge ex patch) s.map },
       .ok (Assoc.merge ex patch)) := by
  simp only [Store.update]
  rw [hl]

/-- C1: for every store state and `create(candidate)` call, when the
resolved key (caller-supplied, or generated when the candidate's key is
absent or null) already exists in the map, `create` raises
`DuplicateKeyError` and the mapping is unchanged; when it does not exist,
`create` inserts the final record — the candidate merged with the resolved
key under the key field name — and returns that record. -/
theorem create_duplicate_or_insert (s : Store) (now : Nat) (item : Rcd) :
    ((Assoc.lookup (s.resolveKey now item).1 s.map).isSome →
      (s.create now item).2 = .error (.duplicateKey (s.resolveKey now item).1) ∧
      (s.create now item).1.map = s.map) ∧
    (¬ (Assoc.lookup (s.resolveKey now item).1 s.map).isSome →
      (s.create now item).2 =
        .ok (Assoc.set s.keyName (s.resolveKey now item).1 item) ∧
      (s.create now item).1.get (s.resolveKey now item).1 =
        some (Assoc.set s.keyName (s.resolveKey now item).1 item) ∧
      (∀ k', k' ≠ (s.resolveKey now item).1 →
        (s.create now item).1.get k' = s.get k')) := by
  constructor
  · intro h
    simp only [Store.create]
    rw [if_pos h]
    exact ⟨rfl, rfl⟩
  · intro h
    simp only [Store.create, Store.get]
    rw [if_neg h]
    refine ⟨rfl, ?_, ?_⟩
    · exact Assoc.lookup_set_self _ _ _
    · intro k' hk'
      exact Assoc.lookup_set_ne _ _ _ _ hk'

theorem create_duplicate_or_insert_witness :
    ((userStore.create 0 [("id", Value.str "a")]).2 =
        .error (.duplicateKey (userStore.resolveKey 0 [("id", Value.str "a")]).1) ∧
      (userStore.create 0 [("id", Value.str "a")]).1.map = userStore.map) ∧
    (userStore.create 0 [("id", Value.str "b")]).2 =
      .ok (Assoc.set userStore.keyName
        (userStore.resolveKey 0 [("id", Value.str "b")]).1 [("id", Value.str "b")]) :=
  ⟨(create_duplicate_or_insert userStore 0 [("id", Value.str "a")]).1 (by decide),
   ((create_duplicate_or_insert userStore 0 [("id", Value.str "b")]).2 (by decide)).1⟩

/-- C2: in every state reachable by any sequence of the public operations
(update patches not containing the key field), every record in the mapping
is stored under the key equal to its own key-field value, and no two
records in the mapping share a key-field value. -/
theorem reachable_store_invariant (kn : String) (s : Store) (h : Reachable kn s) :
    (∀ e ∈ s.map, Assoc.lookup s.keyName e.2 = some e.1) ∧
    (s.map.map fun e => Assoc.lookup s.keyName e.2).Nodup := by
  obtain ⟨⟨hnd, hkey⟩, _⟩ := reachable_inv h
  refine ⟨hkey, ?_⟩
  have h1 : (s.map.map fun e => Assoc.lookup s.keyName e.2) =
      s.map.map (fun e => some e.1) := List.map_congr_left hkey
  have h2 : s.map.map (fun e => some e.1) = (Assoc.keys s.map).map some := by
    simp [Assoc.keys, List.map_map, Function.comp]
  rw [h1, h2]
  exact List.Nodup.map (Option.some_injective _) hnd

theorem reachable_store_invariant_witness :
    (∀ e ∈ ((Store.empty "id").step (.createOp 0 [("id", Value.str "a")])).1.map,
      Assoc.lookup ((Store.empty "id").step (.createOp 0 [("id", Value.str "a")])).1.keyName
        e.2 = some e.1) ∧
    (((Store.empty "id").step (.createOp 0 [("id", Value.str "a")])).1.map.map fun e =>
      Assoc.lookup ((Store.empty "id").step (.createOp 0 [("id", Value.str "a")])).1.keyName
        e.2).Nodup :=
  reachable_store_invariant "id" _
    (Reachable.step Reachable.init (WfOp.createW 0 [("id", Value.str "a")]))

/-- C3: when a transaction body raises any error, the store's mapping after
`transaction` equals the mapping immediately before the transaction (every
mutation made through the view is undone) and the very same error is
re-raised to the transaction's caller. -/
theorem transaction_rollback_on_error (s : Store) (body : List Cmd) (s' : Store)
    (e : DSError) (h : runBody s body = (s', .error e)) :
    (s.transaction body).1.map = s.map ∧ (s.transaction body).2 = .error e := by
  simp only [Store.transaction]
  rw [h]
  exact ⟨rfl, rfl⟩

theorem transaction_rollback_on_error_witness :
    (txnStore.transaction txnBodyFail).1.map = txnStore.map ∧
    (txnStore.transaction txnBodyFail).2 = .error (.userError "boom") :=
  transaction_rollback_on_error txnStore txnBodyFail txnStoreAfter
    (.userError "boom") rfl

/-- C4: when a transaction body runs to completion, `transaction` returns
the body's value and the store afterwards is exactly the store the body's
mutations produced (nothing is undone, nothing else changes). -/
theorem transaction_commit_on_success (s : Store) (body : List Cmd) (s' : Store)
    (outs : List Out) (h : runBody s body = (s', .ok outs)) :
    s.transaction body = (s', .ok outs) := by
  simp only [Store.transaction]
  rw [h]

theorem transaction_commit_on_success_witness :
    txnStore.transaction txnBodyOk =
      (txnStoreAfter, .ok [.recOut [("id", Value.str "t2")]]) :=
  transaction_commit_on_success txnStore txnBodyOk txnStoreAfter
    [.recOut [("id", Value.str "t2")]] rfl

/-- C5: for a key `k` present in an invariant-satisfying store and a patch
not containing the key field, `update(k, p)` returns the shallow merge of
the old record with the patch: its key field is `k`, patched fields take
the patch's values, unpatched fields keep the old record's values, the
entry under `k` is replaced by exactly that record, and no other mapping
entry changes. -/
theorem update_merge_spec (s : Store) (k : Value) (patch old : Rcd)
    (hinv : StoreInv s) (hold : s.get k = some old)
    (hp : Assoc.lookup s.keyName patch = none) :
    (s.update k patch).2 = .ok (Assoc.merge old patch) ∧
    Assoc.lookup s.keyName (Assoc.merge old patch) = some k ∧
    (∀ f v, Assoc.lookup f patch = some v →
      Assoc.lookup f (Assoc.merge old patch) = some v) ∧
    (∀ f, Assoc.lookup f patch = none →
      Assoc.lookup f (Assoc.merge old patch) = Assoc.lookup f old) ∧
    (s.update k patch).1.get k = some (Assoc.merge old patch) ∧
    (∀ k', k' ≠ k → (s.update k patch).1.get k' = s.get k') := by
  have hl : Assoc.lookup k s.map = some old := hold
  refine ⟨?_, ?_, ?_, ?_, ?_, ?_⟩
  · rw [update_eq_of_some patch hl]
  · rw [Assoc.lookup_merge, hp]
    exact hinv.2 (k, old) (Assoc.lookup_mem hl)
  · intro f v hv
    rw [Assoc.lookup_merge, hv]
  · intro f hf
    rw [Assoc.lookup_merge, hf]
  · rw [update_eq_of_some patch hl]
    exact Assoc.lookup_set_self _ _ _
  · intro k' hk'
    rw [update_eq_of_some patch hl]
    exact Assoc.lookup_set_ne _ _ _ _ hk'

theorem update_merge_spec_witness :
    (userStore.update (Value.str "a") [("x", Value.num 9)]).2 =
      .ok (Assoc.merge userRcd [("x", Value.num 9)]) ∧
    Assoc.lookup userStore.keyName (Assoc.merge userRcd [("x", Value.num 9)]) =
      some (Value.str "a") :=
  let h := update_merge_spec userStore (Value.str "a") [("x", Value.num 9)] userRcd
    ⟨by decide, by decide⟩ rfl rfl
  ⟨h.1, h.2.1⟩

/-- C6: `update(k, p)` raises `NotFoundError` exactly when no record is
stored under `k`, and in that case the store is unchanged. -/
theorem update_notfound_iff (s : Store) (k : Value) (patch : Rcd) :
    ((s.update k patch).2 = .error .notFound ↔ s.get k = none) ∧
    (s.get k = none → (s.update k patch).1 = s) := by
  cases hl : Assoc.lookup k s.map with
  | none =>
    rw [update_eq_of_none patch hl]
    exact ⟨⟨fun _ => hl, fun _ => rfl⟩, fun _ => rfl⟩
  | some ex =>
    rw [update_eq_of_some patch hl]
    have hg : s.get k = some ex := hl
    constructor
    · constructor
      · intro h
        exact absurd h (by simp)
      · intro h
        rw [hg] at h
        exact absurd h (by simp)
    · intro h
      rw [hg] at h
      exact absurd h (by simp)

theorem update_notfound_iff_witness :
    (userStore.update (Value.str "zz") []).2 = .error .notFound ∧
    (userStore.update (Value.str "zz") []).1 = userStore :=
  ⟨((update_notfound_iff userStore (Value.str "zz") []).1).mpr rfl,
   (update_notfound_iff userStore (Value.str "zz") []).2 rfl⟩

/-- C7: `get`, `delete`, `list`, `query` and `clear` are total — for every
store state, key, options and filter expression, the operation returns
normally (`.ok`) with the explicit absent-capable result (`get`), a boolean
(`delete`), a sequence (`list`, `query`) or unit (`clear`); only `create`
and `update` can produce `.error`. -/
theorem read_ops_total (s : Store) (k : Value) (o : QueryOptions) (f : Filter) :
    s.step (.getOp k) = (s, .ok (.optOut (s.get k))) ∧
    s.step (.deleteOp k) = ((s.delete k).1, .ok (.boolOut (s.delete k).2)) ∧
    s.step (.listOp o) = (s, .ok (.listOut (s.list o))) ∧
    s.step (.queryOp f o) = (s, .ok (.listOut (s.query f o))) ∧
    s.step .clearOp = (s.clear, .ok .unitOut) :=
  ⟨rfl, rfl, rfl, rfl, rfl⟩

/-- C8: `list` returns the (optionally sorted) sequence sliced from index
`offset` (default 0) for `limit` (default: full remaining length) records —
so a `limit` bounds the result length, omitted options return everything,
and an offset at or beyond the record count yields `[]`, never an error. -/
theorem list_pagination_spec (s : Store) (o : QueryOptions) :
    s.list o =
      ((s.listArr o).drop (o.offset.getD 0)).take
        (o.limit.getD (s.listArr o).length) ∧
    (∀ n, o.limit = some n → (s.list o).length ≤ n) ∧
    (o.offset = none → o.limit = none → s.list o = s.listArr o) ∧
    ((s.listArr o).length ≤ o.offset.getD 0 → s.list o = []) := by
  have hmain : s.list o =
      ((s.listArr o).drop (o.offset.getD 0)).take
        (o.limit.getD (s.listArr o).length) := by
    simp only [Store.list, jsSlice]
    rw [List.drop_take]
    congr 1
    omega
  refine ⟨hmain, ?_, ?_, ?_⟩
  · intro n hn
    rw [hmain, hn]
    simp only [Option.getD_some]
    exact List.length_take_le _ _
  · intro ho hn
    rw [hmain, ho, hn]
    simp [List.take_length]
  · intro hlen
    rw [hmain, List.drop_eq_nil_of_le hlen]
    simp

theorem list_pagination_spec_witness :
    (demoStore.list { limit := some 2 }).length ≤ 2 ∧
    demoStore.list {} = demoStore.listArr {} ∧
    demoStore.list { offset := some 5, limit := some 2 } = [] :=
  ⟨(list_pagination_spec demoStore { limit := some 2 }).2.1 2 rfl,
   (list_pagination_spec demoStore {}).2.2.1 rfl rfl,
   (list_pagination_spec demoStore { offset := some 5, limit := some 2 }).2.2.2
     (by decide)⟩

/-- C9: the numeric `between` operator is inclusive at both ends — a record
whose field `f` holds the number `v` matches `{f: {between: [low, high]}}`
iff `low ≤ v ≤ high` — and on the Alice/Bob/Charlie store,
`query({age:{between:[30,40]}})` returns exactly the Bob record. -/
theorem between_inclusive_spec :
    (∀ (item : Rcd) (f : String) (low high v : Int),
      Assoc.lookup f item = some (Value.num v) →
      (matchesFilterF item
          (.node [(f, some { between := some (low, high) })] none none) = true ↔
        low ≤ v ∧ v ≤ high)) ∧
    demoStore.query
        (.node [("age", some { between := some (30, 40) })] none none) {} =
      [bobRcd] := by
  constructor
  · intro item f low high v hv
    simp [matchesFilterF, matchField, hv, Option.all]
  · decide

theorem between_inclusive_spec_witness :
    matchesFilterF bobRcd
        (.node [("age", some { between := some (30, 40) })] none none) = true ↔
      (30 : Int) ≤ 35 ∧ (35 : Int) ≤ 40 :=
  between_inclusive_spec.1 bobRcd "age" 30 40 35 rfl

/-- C10: a runtime patch that does contain the key field (which the static
`Update` type forbids but the runtime never checks) goes through: updating
`"a"` with `{id:"b"}` succeeds and leaves, stored under `"a"`, a record
whose own key field is `"b"` — stored under a key different from its
key-field value — and `get("b")` does not return it. -/
theorem update_key_patch_breaks_invariant :
    (userStore.update (Value.str "a") [("id", Value.str "b")]).2 =
      .ok [("id", Value.str "b"), ("x", Value.num 1)] ∧
    (userStore.update (Value.str "a") [("id", Value.str "b")]).1.get
        (Value.str "a") = some [("id", Value.str "b"), ("x", Value.num 1)] ∧
    Assoc.lookup "id" [("id", Value.str "b"), ("x", Value.num 1)] =
      some (Value.str "b") ∧
    Value.str "b" ≠ Value.str "a" ∧
    (userStore.update (Value.str "a") [("id", Value.str "b")]).1.get
        (Value.str "b") = none := by
  refine ⟨rfl, rfl, rfl, by decide, rfl⟩

end DS
